import Mathlib

/-!
# Edison PWM pin (`platforms/intel-iot/edison/pwm_pin.go`)

A shallow embedding of the `pwmPin` type of the Edison adaptor and of the
functions of `pwm_pin.go`, followed by theorems about them.

Conventions of the embedding.

* A Go `int` is a Lean `Int`; the only place where the width of `int`
  matters in this file is `strconv.Atoi`, which takes the width
  (`strconv.IntSize`, 32 or 64) from the environment.
* A Go `[]byte` and a Go `string` holding data are a `List Char`, one `Char`
  per byte.  File paths are Lean `String`s.
* A Go `error` is an `Option GoError`, `none` being `nil`.
* `readFile` and `writeFile` are not defined in `pwm_pin.go`; they are fields
  of the environment `Env σ`, which acts on an explicit state `σ`.
* A call either returns or panics (`Outcome`).
-/

namespace Edison

/-! ## Go values -/

/-- The two sentinel errors of package `strconv`: `ErrSyntax` is `malformed`,
`ErrRange` is `outOfRange`. -/
inductive NumErrKind where
  | malformed
  | outOfRange
  deriving DecidableEq, Repr

/-- The errors that can flow through `pwm_pin.go`: an error handed back by
`readFile` or `writeFile`, a `*strconv.NumError` (the text that failed to
convert and the reason), and an error built by `fmt.Errorf` (its message). -/
inductive GoError where
  | fileError (code : String)
  | numError (num : List Char) (kind : NumErrKind)
  | errorf (msg : List Char)
  deriving DecidableEq, Repr

/-- How a call ends: it returns its results, or it panics. -/
inductive Outcome (α : Type) where
  | returned (a : α)
  | panicked (msg : String)
  deriving DecidableEq, Repr

/-! ## `strconv` -/

/-- The decimal digit character of `d`, for `d < 10`. -/
def digitChar (d : Nat) : Char := Char.ofNat (48 + d)

/-- The byte is one of `'0'` .. `'9'`. -/
def isDigit (c : Char) : Bool := decide (48 ≤ c.toNat) && decide (c.toNat ≤ 57)

/-- The value of a digit character. -/
def digitVal (c : Char) : Nat := c.toNat - 48

/-- Most significant digit first, the decimal digits of `n` pushed in front
of `acc`; `fuel` bounds the number of digits. -/
def utoaAux : Nat → Nat → List Char → List Char
  | 0, _, acc => acc
  | fuel + 1, n, acc =>
    if n < 10 then digitChar n :: acc
    else utoaAux fuel (n / 10) (digitChar (n % 10) :: acc)

/-- The decimal text of a natural number, without leading zeros. -/
def utoa (n : Nat) : List Char := utoaAux (n + 1) n []

/-- Go `strconv.Itoa`: the decimal text of an `int`, with a leading `-` for a
negative number. -/
def Itoa (i : Int) : List Char :=
  if i < 0 then '-' :: utoa i.natAbs else utoa i.toNat

/-- The digit loop of `strconv.ParseUint` in base 10: bytes are consumed left
to right; a byte that is not a digit is a syntax error (value 0), an
accumulated value that no longer fits the unsigned integer of `bitSize` bits
is a range error (value: the largest such integer). -/
def parseUintLoop (bitSize : Nat) : List Char → Nat → Nat × Option NumErrKind
  | [], n => (n, none)
  | c :: cs, n =>
    if isDigit c then
      if n * 10 + digitVal c < 2 ^ bitSize then
        parseUintLoop bitSize cs (n * 10 + digitVal c)
      else (2 ^ bitSize - 1, some .outOfRange)
    else (0, some .malformed)

/-- Go `strconv.ParseUint(s, 10, bitSize)`. -/
def ParseUint (bitSize : Nat) (s : List Char) : Nat × Option NumErrKind :=
  match s with
  | [] => (0, some .malformed)
  | _ :: _ => parseUintLoop bitSize s 0

/-- Go `strconv.Atoi` on a platform whose `int` has `intSize` bits, that is
`ParseInt(s, 10, 0)`: an optional sign, then one or more decimal digits, the
value within `-2^(intSize-1) .. 2^(intSize-1) - 1`.  A syntax error comes with
the value 0, a range error with the nearest bound. -/
def Atoi (intSize : Nat) (s : List Char) : Int × Option GoError :=
  match s with
  | [] => (0, some (.numError s .malformed))
  | c :: cs =>
    let neg : Bool := c = '-'
    let rest : List Char := if c = '+' ∨ c = '-' then cs else s
    match ParseUint intSize rest with
    | (_, some .malformed) => (0, some (.numError s .malformed))
    | (un, _) =>
      let cutoff : Nat := 2 ^ (intSize - 1)
      if !neg && decide (cutoff ≤ un) then
        ((cutoff : Int) - 1, some (.numError s .outOfRange))
      else if neg && decide (cutoff < un) then
        (-(cutoff : Int), some (.numError s .outOfRange))
      else (if neg then -(un : Int) else (un : Int), none)

/-- The slice expression `buf[lo:hi]` on a slice whose capacity equals its
length: `none` stands for the run-time panic "slice bounds out of range",
raised unless `0 ≤ lo ≤ hi ≤ len(buf)`. -/
def slice (buf : List Char) (lo hi : Int) : Option (List Char) :=
  if 0 ≤ lo ∧ lo ≤ hi ∧ hi ≤ (buf.length : Int) then
    some ((buf.take hi.toNat).drop lo.toNat)
  else none

/-! ## Paths -/

/-- Source `pwmPath`. -/
def pwmPath : String := "/sys/class/pwm/pwmchip0"

/-- Source `pwmExportPath`. -/
def pwmExportPath : String := pwmPath ++ "/export"

/-- Source `pwmUnExportPath`. -/
def pwmUnExportPath : String := pwmPath ++ "/unexport"

/-- Source `pwmDutyCyclePath`: `fmt.Sprintf("%s/pwm%d/duty_cycle", pwmPath(), pin)`. -/
def pwmDutyCyclePath (pin : Int) : String :=
  pwmPath ++ "/pwm" ++ String.mk (Itoa pin) ++ "/duty_cycle"

/-- Source `pwmPeriodPath`: `fmt.Sprintf("%s/pwm%d/period", pwmPath(), pin)`. -/
def pwmPeriodPath (pin : Int) : String :=
  pwmPath ++ "/pwm" ++ String.mk (Itoa pin) ++ "/period"

/-- Source `pwmEnablePath`: `fmt.Sprintf("%s/pwm%d/enable", pwmPath(), pin)`. -/
def pwmEnablePath (pin : Int) : String :=
  pwmPath ++ "/pwm" ++ String.mk (Itoa pin) ++ "/enable"

/-! ## The environment -/

/-- What `pwm_pin.go` takes from outside: the width of `int` and the two file
primitives `readFile(path) ([]byte, error)` and
`writeFile(path, data) (int, error)`, acting on a state `σ`. -/
structure Env (σ : Type) where
  intSize : Nat
  readFile : String → σ → (List Char × Option GoError) × σ
  writeFile : String → List Char → σ → (Int × Option GoError) × σ

/-- One call of a file primitive, as seen from outside. -/
inductive IOEvent where
  | read (path : String)
  | write (path : String) (data : List Char)
  deriving DecidableEq, Repr

/-- The environment `env` with a log: every call of `readFile` or `writeFile`,
failed or not, is appended to the list of events. -/
def Env.logged {σ : Type} (env : Env σ) : Env (σ × List IOEvent) where
  intSize := env.intSize
  readFile := fun path st =>
    ((env.readFile path st.1).1, ((env.readFile path st.1).2, st.2 ++ [IOEvent.read path]))
  writeFile := fun path data st =>
    ((env.writeFile path data st.1).1,
      ((env.writeFile path data st.1).2, st.2 ++ [IOEvent.write path data]))

/-! ## `pwmPin` -/

/-- Source `type pwmPin struct { pin int }`. -/
structure pwmPin where
  pin : Int
  deriving DecidableEq, Repr

/-- Source `newPwmPin`: builds the handle and calls nothing. -/
def newPwmPin {σ : Type} (_env : Env σ) (pin : Int) (s : σ) : pwmPin × σ :=
  (⟨pin⟩, s)

/-- Source `pwmPin.enable`. -/
def pwmPin.enable {σ : Type} (env : Env σ) (p : pwmPin) (v : Bool) (s : σ) :
    Option GoError × σ :=
  let val : List Char := if v then ['1'] else ['0']
  ((env.writeFile (pwmEnablePath p.pin) val s).1.2, (env.writeFile (pwmEnablePath p.pin) val s).2)

/-- Source `pwmPin.period`. -/
def pwmPin.period {σ : Type} (env : Env σ) (p : pwmPin) (s : σ) :
    Outcome (Int × Option GoError) × σ :=
  match env.readFile (pwmPeriodPath p.pin) s with
  | ((_, some err), s1) => (.returned (0, some err), s1)
  | ((buf, none), s1) =>
    match slice buf 0 ((buf.length : Int) - 1) with
    | none => (.panicked "slice bounds out of range", s1)
    | some txt =>
      match Atoi env.intSize txt with
      | (_, some err) => (.returned (0, some err), s1)
      | (period, none) => (.returned (period, none), s1)

/-- Source `pwmPin.duty`. -/
def pwmPin.duty {σ : Type} (env : Env σ) (p : pwmPin) (s : σ) :
    Outcome (Int × Option GoError) × σ :=
  match env.readFile (pwmDutyCyclePath p.pin) s with
  | ((_, some err), s1) => (.returned (0, some err), s1)
  | ((buf, none), s1) =>
    match slice buf 0 ((buf.length : Int) - 1) with
    | none => (.panicked "slice bounds out of range", s1)
    | some txt =>
      match Atoi env.intSize txt with
      | (_, some err) => (.returned (0, some err), s1)
      | (duty, none) => (.returned (duty, none), s1)

/-- The message of the validation error of `pwmWrite`:
`"duty cannot be greater than period: %d > %d"` at `duty`, `period`. -/
def dutyGreaterMsg (period duty : Int) : List Char :=
  "duty cannot be greater than period: ".toList ++ Itoa duty ++ " > ".toList ++ Itoa period

/-- Source `pwmPin.pwmWrite`. -/
def pwmPin.pwmWrite {σ : Type} (env : Env σ) (p : pwmPin) (period duty : Int) (s : σ) :
    Outcome (Option GoError) × σ :=
  if duty > period then
    (.returned (some (.errorf (dutyGreaterMsg period duty))), s)
  else
    match p.duty env s with
    | (.panicked msg, s1) => (.panicked msg, s1)
    | (.returned (_, some err), s1) => (.returned (some err), s1)
    | (.returned (curDuty, none), s1) =>
      if period ≥ curDuty then
        match env.writeFile (pwmPeriodPath p.pin) (Itoa period) s1 with
        | ((_, none), s2) =>
          ((.returned (env.writeFile (pwmDutyCyclePath p.pin) (Itoa duty) s2).1.2),
            (env.writeFile (pwmDutyCyclePath p.pin) (Itoa duty) s2).2)
        | ((_, some err), s2) => (.returned (some err), s2)
      else
        match env.writeFile (pwmDutyCyclePath p.pin) (Itoa duty) s1 with
        | ((_, none), s2) =>
          ((.returned (env.writeFile (pwmPeriodPath p.pin) (Itoa period) s2).1.2),
            (env.writeFile (pwmPeriodPath p.pin) (Itoa period) s2).2)
        | ((_, some err), s2) => (.returned (some err), s2)

/-- Source `pwmPin.export` (`export` is a reserved word here, hence the name). -/
def pwmPin.exportPin {σ : Type} (env : Env σ) (p : pwmPin) (s : σ) : Option GoError × σ :=
  ((env.writeFile pwmExportPath (Itoa p.pin) s).1.2, (env.writeFile pwmExportPath (Itoa p.pin) s).2)

/-- Source `pwmPin.unexport`. -/
def pwmPin.unexport {σ : Type} (env : Env σ) (p : pwmPin) (s : σ) : Option GoError × σ :=
  ((env.writeFile pwmUnExportPath (Itoa p.pin) s).1.2,
    (env.writeFile pwmUnExportPath (Itoa p.pin) s).2)

/-! ## Concrete environments -/

/-- Modelled from the spec: the kernel side of the per-channel files of channel
`N`, which `readFile` and `writeFile` reach but `pwm_pin.go` does not define.
The channel is exported or not; while it is, each of its three files holds the
text last written to it. -/
structure Sysfs where
  exported : Bool
  enable : List Char
  period : List Char
  duty_cycle : List Char
  deriving DecidableEq, Repr

/-- Modelled from the spec: `readFile` and `writeFile` over the files of
channel `N` under `/sys/class/pwm/pwmchip0` (§4.2, §4.3, §6).  Writing the
decimal channel index to `export` creates the channel files, writing it to
`unexport` removes them.  While the channel is exported, a write to one of
its files stores the bytes and a read yields the stored text followed by a
newline; every write is applied as it comes, nothing is validated.  Any other
access fails. -/
def sysfs (intSize : Nat) (N : Int) : Env Sysfs where
  intSize := intSize
  readFile := fun path s =>
    if s.exported = true ∧ path = pwmPeriodPath N then ((s.period ++ ['\n'], none), s)
    else if s.exported = true ∧ path = pwmDutyCyclePath N then
      ((s.duty_cycle ++ ['\n'], none), s)
    else if s.exported = true ∧ path = pwmEnablePath N then ((s.enable ++ ['\n'], none), s)
    else (([], some (.fileError "ENOENT")), s)
  writeFile := fun path data s =>
    if path = pwmExportPath then
      if s.exported = false ∧ data = Itoa N then
        ((data.length, none), ⟨true, ['0'], ['0'], ['0']⟩)
      else ((0, some (.fileError "EBUSY")), s)
    else if path = pwmUnExportPath then
      if s.exported = true ∧ data = Itoa N then
        ((data.length, none), { s with exported := false })
      else ((0, some (.fileError "ENODEV")), s)
    else if s.exported = true ∧ path = pwmPeriodPath N then
      ((data.length, none), { s with period := data })
    else if s.exported = true ∧ path = pwmDutyCyclePath N then
      ((data.length, none), { s with duty_cycle := data })
    else if s.exported = true ∧ path = pwmEnablePath N then
      ((data.length, none), { s with enable := data })
    else ((0, some (.fileError "ENOENT")), s)

/-- The exported channel whose period file holds the decimal text of `period`
and whose duty_cycle file holds the decimal text of `duty`. -/
def Sysfs.ofPair (period duty : Int) : Sysfs :=
  ⟨true, ['1'], Itoa period, Itoa duty⟩

/-- The channel is exported and its files hold the pair `(period, duty)`. -/
def Sysfs.Stores (s : Sysfs) (period duty : Int) : Prop :=
  s.exported = true ∧ s.period = Itoa period ∧ s.duty_cycle = Itoa duty

/-- The environment `env` with a history: the state reached after each call of
`writeFile` is appended to the list. -/
def Env.recording {σ : Type} (env : Env σ) : Env (σ × List σ) where
  intSize := env.intSize
  readFile := fun path st => ((env.readFile path st.1).1, ((env.readFile path st.1).2, st.2))
  writeFile := fun path data st =>
    ((env.writeFile path data st.1).1,
      ((env.writeFile path data st.1).2, st.2 ++ [(env.writeFile path data st.1).2]))

/-- A test double for the file primitives: the state is a script of replies,
one per call.  `readFile` answers with the next reply; `writeFile` answers
with the number of bytes it was given and the error of the next reply.  When
the script is used up every call fails. -/
def scripted (intSize : Nat) : Env (List (List Char × Option GoError)) where
  intSize := intSize
  readFile := fun _ script =>
    match script with
    | [] => (([], some (.fileError "EIO")), [])
    | reply :: rest => (reply, rest)
  writeFile := fun _ data script =>
    match script with
    | [] => ((0, some (.fileError "EIO")), [])
    | reply :: rest => ((data.length, reply.2), rest)

/-! ## Specification-side notions -/

/-- The range of an `int` of `intSize` bits. -/
def InIntRange (intSize : Nat) (v : Int) : Prop :=
  -(2 ^ (intSize - 1) : Int) ≤ v ∧ v < (2 ^ (intSize - 1) : Int)

instance (intSize : Nat) (v : Int) : Decidable (InIntRange intSize v) := by
  unfold InIntRange; infer_instance

/-- The number denoted by a string of decimal digits, most significant first. -/
def decimalValue (ds : List Char) : Nat := Nat.ofDigits 10 (ds.reverse.map digitVal)

/-- The text `txt` is a decimal integer of an `int` of `intSize` bits and
denotes `v`: an optional sign `+` or `-`, then one or more decimal digits, the
signed value within the range of `int`. -/
def Denotes (intSize : Nat) (txt : List Char) (v : Int) : Prop :=
  InIntRange intSize v ∧
    ∃ digits : List Char, digits ≠ [] ∧ (∀ c ∈ digits, isDigit c = true) ∧
      ((txt = digits ∧ v = (decimalValue digits : Int)) ∨
        (txt = '+' :: digits ∧ v = (decimalValue digits : Int)) ∨
        (txt = '-' :: digits ∧ v = -(decimalValue digits : Int)))

/-- The text is a base-10 non-negative integer in the plain sense: one or
more decimal digits and nothing else. -/
def isNonNegDecimal (txt : List Char) : Bool := !txt.isEmpty && txt.all isDigit

/-- The state after the call recorded by the event `ev`, made in state `s`. -/
def Env.apply {σ : Type} (env : Env σ) (ev : IOEvent) (s : σ) : σ :=
  match ev with
  | .read path => (env.readFile path s).2
  | .write path data => (env.writeFile path data s).2

/-! ## Decimal text: conversion lemmas -/

theorem isDigit_digitChar (d : Nat) (h : d < 10) : isDigit (digitChar d) = true := by
  interval_cases d <;> decide

theorem digitVal_digitChar (d : Nat) (h : d < 10) : digitVal (digitChar d) = d := by
  interval_cases d <;> decide

theorem digitVal_lt_ten (c : Char) (h : isDigit c = true) : digitVal c < 10 := by
  simp only [isDigit, Bool.and_eq_true, decide_eq_true_eq] at h
  unfold digitVal
  omega

theorem decimalValue_nil : decimalValue [] = 0 := by
  simp [decimalValue]

theorem decimalValue_cons (c : Char) (cs : List Char) :
    decimalValue (c :: cs) = digitVal c * 10 ^ cs.length + decimalValue cs := by
  simp [decimalValue, Nat.ofDigits_append]
  ring

theorem parseUintLoop_append (bits : Nat) (s t : List Char) (n : Nat) :
    parseUintLoop bits (s ++ t) n =
      match parseUintLoop bits s n with
      | (m, none) => parseUintLoop bits t m
      | r => r := by
  induction s generalizing n with
  | nil => simp [parseUintLoop]
  | cons c cs ih =>
    simp only [List.cons_append, parseUintLoop]
    split_ifs <;> simp [ih]

/-- A successful digit loop has only seen digits and returns the accumulated
decimal value, which fits. -/
theorem parseUintLoop_ok (bits : Nat) (s : List Char) (n v : Nat)
    (h : parseUintLoop bits s n = (v, none)) :
    (∀ c ∈ s, isDigit c = true) ∧ v = n * 10 ^ s.length + decimalValue s ∧
      (s ≠ [] → v < 2 ^ bits) := by
  induction s generalizing n with
  | nil =>
    simp only [parseUintLoop, Prod.mk.injEq, and_true] at h
    simp [decimalValue_nil, h]
  | cons c cs ih =>
    simp only [parseUintLoop] at h
    by_cases hd : isDigit c = true
    · by_cases hr : n * 10 + digitVal c < 2 ^ bits
      · simp only [hd, hr, if_true] at h
        obtain ⟨h1, h2, h3⟩ := ih _ h
        refine ⟨?_, ?_, ?_⟩
        · intro x hx
          rcases List.mem_cons.mp hx with rfl | hx
          · exact hd
          · exact h1 x hx
        · rw [h2, decimalValue_cons, List.length_cons]
          ring
        · intro _
          by_cases hcs : cs = []
          · subst hcs
            simp [decimalValue_nil] at h2
            omega
          · exact h3 hcs
      · simp [hd, hr] at h
    · simp [hd] at h

/-- On digits whose accumulated value fits, the digit loop succeeds. -/
theorem parseUintLoop_of_digits (bits : Nat) (s : List Char) (n : Nat)
    (hs : ∀ c ∈ s, isDigit c = true)
    (hfit : n * 10 ^ s.length + decimalValue s < 2 ^ bits) :
    parseUintLoop bits s n = (n * 10 ^ s.length + decimalValue s, none) := by
  induction s generalizing n with
  | nil => simp [parseUintLoop, decimalValue_nil]
  | cons c cs ih =>
    have hc : isDigit c = true := hs c (List.mem_cons_self _ _)
    have hcs : ∀ x ∈ cs, isDigit x = true := fun x hx => hs x (List.mem_cons_of_mem _ hx)
    have e : (n * 10 + digitVal c) * 10 ^ cs.length + decimalValue cs
        = n * 10 ^ (c :: cs).length + decimalValue (c :: cs) := by
      rw [decimalValue_cons, List.length_cons]; ring
    have hpos : 0 < 10 ^ cs.length := Nat.pow_pos (by norm_num)
    have hstep : n * 10 + digitVal c < 2 ^ bits := by
      have : n * 10 + digitVal c ≤ (n * 10 + digitVal c) * 10 ^ cs.length :=
        Nat.le_mul_of_pos_right _ hpos
      omega
    simp only [parseUintLoop, hc, hstep, if_true]
    rw [ih _ hcs (by omega), e]

theorem parseUintLoop_err (bits : Nat) (s : List Char) (n v : Nat) (e : NumErrKind)
    (h : parseUintLoop bits s n = (v, some e)) :
    (v = 0 ∧ e = .malformed) ∨ (v = 2 ^ bits - 1 ∧ e = .outOfRange) := by
  induction s generalizing n with
  | nil => simp [parseUintLoop] at h
  | cons c cs ih =>
    simp only [parseUintLoop] at h
    split_ifs at h
    · exact ih _ h
    · simp only [Prod.mk.injEq, Option.some.injEq] at h
      exact Or.inr ⟨h.1.symm, h.2.symm⟩
    · simp only [Prod.mk.injEq, Option.some.injEq] at h
      exact Or.inl ⟨h.1.symm, h.2.symm⟩

theorem ParseUint_ok_iff (bits : Nat) (s : List Char) (v : Nat) :
    ParseUint bits s = (v, none) ↔
      s ≠ [] ∧ (∀ c ∈ s, isDigit c = true) ∧ v = decimalValue s ∧ v < 2 ^ bits := by
  cases s with
  | nil => simp [ParseUint]
  | cons c cs =>
    simp only [ParseUint]
    constructor
    · intro h
      obtain ⟨h1, h2, h3⟩ := parseUintLoop_ok bits _ _ _ h
      exact ⟨by simp, h1, by simpa using h2, h3 (by simp)⟩
    · rintro ⟨_, h1, h2, h3⟩
      have := parseUintLoop_of_digits bits (c :: cs) 0 h1 (by simpa [← h2] using h3)
      simpa [← h2] using this

theorem ParseUint_err (bits : Nat) (s : List Char) (v : Nat) (e : NumErrKind)
    (h : ParseUint bits s = (v, some e)) :
    (v = 0 ∧ e = .malformed) ∨ (v = 2 ^ bits - 1 ∧ e = .outOfRange) := by
  cases s with
  | nil =>
    simp only [ParseUint, Prod.mk.injEq, Option.some.injEq] at h
    exact Or.inl ⟨h.1.symm, h.2.symm⟩
  | cons c cs => exact parseUintLoop_err bits _ _ _ _ h

theorem isDigit_ne_sign (c : Char) (h : isDigit c = true) : c ≠ '+' ∧ c ≠ '-' := by
  constructor <;> rintro rfl <;> exact absurd h (by decide)

theorem two_pow_pred_lt (intSize : Nat) (h : 2 ≤ intSize) :
    2 ^ (intSize - 1) + 2 ≤ 2 ^ intSize := by
  obtain ⟨k, rfl⟩ : ∃ k, intSize = k + 2 := ⟨intSize - 2, by omega⟩
  have : 1 ≤ 2 ^ k := Nat.one_le_two_pow
  simp only [show k + 2 - 1 = k + 1 from rfl, pow_succ]
  omega

theorem Atoi_neg (intSize : Nat) (cs : List Char) :
    Atoi intSize ('-' :: cs) =
      match ParseUint intSize cs with
      | (_, some .malformed) => (0, some (.numError ('-' :: cs) .malformed))
      | (un, _) =>
        if 2 ^ (intSize - 1) < un then
          (-((2 ^ (intSize - 1) : Nat) : Int), some (.numError ('-' :: cs) .outOfRange))
        else (-(un : Int), none) := by
  simp [Atoi]

theorem Atoi_plus (intSize : Nat) (cs : List Char) :
    Atoi intSize ('+' :: cs) =
      match ParseUint intSize cs with
      | (_, some .malformed) => (0, some (.numError ('+' :: cs) .malformed))
      | (un, _) =>
        if 2 ^ (intSize - 1) ≤ un then
          (((2 ^ (intSize - 1) : Nat) : Int) - 1, some (.numError ('+' :: cs) .outOfRange))
        else ((un : Int), none) := by
  simp [Atoi]

theorem Atoi_unsigned (intSize : Nat) (c : Char) (cs : List Char) (h1 : c ≠ '+')
    (h2 : c ≠ '-') :
    Atoi intSize (c :: cs) =
      match ParseUint intSize (c :: cs) with
      | (_, some .malformed) => (0, some (.numError (c :: cs) .malformed))
      | (un, _) =>
        if 2 ^ (intSize - 1) ≤ un then
          (((2 ^ (intSize - 1) : Nat) : Int) - 1, some (.numError (c :: cs) .outOfRange))
        else ((un : Int), none) := by
  simp [Atoi, h1, h2]

theorem inIntRange_iff (intSize : Nat) (v : Int) :
    InIntRange intSize v ↔
      -((2 ^ (intSize - 1) : Nat) : Int) ≤ v ∧ v < ((2 ^ (intSize - 1) : Nat) : Int) := by
  unfold InIntRange
  push_cast
  exact Iff.rfl

theorem Atoi_neg_ok_iff (intSize : Nat) (h : 2 ≤ intSize) (cs : List Char) (v : Int) :
    Atoi intSize ('-' :: cs) = (v, none) ↔
      cs ≠ [] ∧ (∀ c ∈ cs, isDigit c = true) ∧ v = -(decimalValue cs : Int) ∧
        InIntRange intSize v := by
  have hlt := two_pow_pred_lt intSize h
  have hpos : 0 < 2 ^ (intSize - 1) := Nat.pow_pos (by norm_num)
  rw [Atoi_neg, inIntRange_iff]
  generalize hC : 2 ^ (intSize - 1) = C at hlt hpos ⊢
  generalize hB : 2 ^ intSize = B at hlt
  have hno : ∀ un e, ParseUint intSize cs = (un, some e) →
      ¬ (cs ≠ [] ∧ (∀ c ∈ cs, isDigit c = true) ∧ v = -(decimalValue cs : Int) ∧
        (-(C : Int) ≤ v ∧ v < (C : Int))) := by
    rintro un e hP ⟨h1, h2, h3, h4, _⟩
    have hfit : decimalValue cs < 2 ^ intSize := by omega
    have := (ParseUint_ok_iff intSize cs (decimalValue cs)).mpr ⟨h1, h2, rfl, hfit⟩
    rw [hP] at this
    simp at this
  rcases hP : ParseUint intSize cs with ⟨un, _ | e⟩
  · obtain ⟨h1, h2, h3, h4⟩ := (ParseUint_ok_iff _ _ _).mp hP
    simp only
    subst h3
    split_ifs with hc
    · constructor
      · intro hv
        simp at hv
      · rintro ⟨_, _, hv, _, _⟩
        omega
    · simp only [Prod.mk.injEq, and_true]
      constructor
      · intro hv
        exact ⟨h1, h2, hv.symm, by omega⟩
      · intro hv
        exact hv.2.2.1.symm
  · rcases ParseUint_err _ _ _ _ hP with ⟨rfl, rfl⟩ | ⟨rfl, rfl⟩
    · constructor
      · intro hv
        simp at hv
      · intro hv
        exact absurd hv (hno _ _ hP)
    · simp only
      rw [if_pos (by omega)]
      constructor
      · intro hv
        simp at hv
      · intro hv
        exact absurd hv (hno _ _ hP)

theorem Atoi_nonneg_ok_iff (intSize : Nat) (h : 2 ≤ intSize) (s ds : List Char) (v : Int)
    (hA : Atoi intSize s =
      match ParseUint intSize ds with
      | (_, some .malformed) => (0, some (.numError s .malformed))
      | (un, _) =>
        if 2 ^ (intSize - 1) ≤ un then
          (((2 ^ (intSize - 1) : Nat) : Int) - 1, some (.numError s .outOfRange))
        else ((un : Int), none)) :
    Atoi intSize s = (v, none) ↔
      ds ≠ [] ∧ (∀ c ∈ ds, isDigit c = true) ∧ v = (decimalValue ds : Int) ∧
        InIntRange intSize v := by
  have hlt := two_pow_pred_lt intSize h
  have hpos : 0 < 2 ^ (intSize - 1) := Nat.pow_pos (by norm_num)
  rw [hA, inIntRange_iff]
  generalize hC : 2 ^ (intSize - 1) = C at hlt hpos ⊢
  generalize hB : 2 ^ intSize = B at hlt
  have hno : ∀ un e, ParseUint intSize ds = (un, some e) →
      ¬ (ds ≠ [] ∧ (∀ c ∈ ds, isDigit c = true) ∧ v = (decimalValue ds : Int) ∧
        (-(C : Int) ≤ v ∧ v < (C : Int))) := by
    rintro un e hP ⟨h1, h2, h3, _, h4⟩
    have hfit : decimalValue ds < 2 ^ intSize := by omega
    have := (ParseUint_ok_iff intSize ds (decimalValue ds)).mpr ⟨h1, h2, rfl, hfit⟩
    rw [hP] at this
    simp at this
  rcases hP : ParseUint intSize ds with ⟨un, _ | e⟩
  · obtain ⟨h1, h2, h3, h4⟩ := (ParseUint_ok_iff _ _ _).mp hP
    simp only
    subst h3
    split_ifs with hc
    · constructor
      · intro hv
        simp at hv
      · rintro ⟨_, _, hv, _, _⟩
        omega
    · simp only [Prod.mk.injEq, and_true]
      constructor
      · intro hv
        exact ⟨h1, h2, hv.symm, by omega⟩
      · intro hv
        exact hv.2.2.1.symm
  · rcases ParseUint_err _ _ _ _ hP with ⟨rfl, rfl⟩ | ⟨rfl, rfl⟩
    · constructor
      · intro hv
        simp at hv
      · intro hv
        exact absurd hv (hno _ _ hP)
    · simp only
      rw [if_pos (by omega)]
      constructor
      · intro hv
        simp at hv
      · intro hv
        exact absurd hv (hno _ _ hP)

/-- `Atoi` returns a nil error exactly on the texts that denote an integer of
the `int` range, and then returns the integer denoted. -/
theorem Atoi_ok_iff (intSize : Nat) (h : 2 ≤ intSize) (s : List Char) (v : Int) :
    Atoi intSize s = (v, none) ↔ Denotes intSize s v := by
  unfold Denotes
  cases s with
  | nil =>
    constructor
    · intro hv
      simp [Atoi] at hv
    · rintro ⟨_, ds, hne, _, ⟨rfl, _⟩ | ⟨hd, _⟩ | ⟨hd, _⟩⟩
      · exact absurd rfl hne
      · simp at hd
      · simp at hd
  | cons c cs =>
    by_cases hm : c = '-'
    · subst hm
      rw [Atoi_neg_ok_iff intSize h]
      constructor
      · rintro ⟨h1, h2, h3, h4⟩
        exact ⟨h4, cs, h1, h2, Or.inr (Or.inr ⟨rfl, h3⟩)⟩
      · rintro ⟨h4, ds, h1, h2, ⟨rfl, _⟩ | ⟨hd, _⟩ | ⟨hd, h3⟩⟩
        · exact absurd (h2 '-' (List.mem_cons_self _ _)) (by decide)
        · simp at hd
        · obtain rfl : cs = ds := by simpa using hd
          exact ⟨h1, h2, h3, h4⟩
    · by_cases hp : c = '+'
      · subst hp
        rw [Atoi_nonneg_ok_iff intSize h _ cs v (Atoi_plus intSize cs)]
        constructor
        · rintro ⟨h1, h2, h3, h4⟩
          exact ⟨h4, cs, h1, h2, Or.inr (Or.inl ⟨rfl, h3⟩)⟩
        · rintro ⟨h4, ds, h1, h2, ⟨rfl, _⟩ | ⟨hd, h3⟩ | ⟨hd, _⟩⟩
          · exact absurd (h2 '+' (List.mem_cons_self _ _)) (by decide)
          · obtain rfl : cs = ds := by simpa using hd
            exact ⟨h1, h2, h3, h4⟩
          · simp at hd
      · rw [Atoi_nonneg_ok_iff intSize h _ (c :: cs) v (Atoi_unsigned intSize c cs hp hm)]
        constructor
        · rintro ⟨h1, h2, h3, h4⟩
          exact ⟨h4, c :: cs, h1, h2, Or.inl ⟨rfl, h3⟩⟩
        · rintro ⟨h4, ds, h1, h2, ⟨rfl, h3⟩ | ⟨hd, _⟩ | ⟨hd, _⟩⟩
          · exact ⟨h1, h2, h3, h4⟩
          · exact absurd (by simpa using hd : c = '+' ∧ cs = ds).1 hp
          · exact absurd (by simpa using hd : c = '-' ∧ cs = ds).1 hm

theorem utoaAux_eq (fuel n : Nat) (acc : List Char) (hn : 0 < n) (hf : n < fuel) :
    utoaAux fuel n acc = ((Nat.digits 10 n).reverse.map digitChar) ++ acc := by
  induction fuel generalizing n acc with
  | zero => omega
  | succ fuel ih =>
    unfold utoaAux
    split_ifs with h10
    · rw [Nat.digits_of_lt 10 n (by omega) h10]
      simp
    · rw [ih (n / 10) _ (by omega) (by omega)]
      conv_rhs => rw [Nat.digits_def' (by norm_num : 1 < 10) hn]
      simp

theorem utoa_zero : utoa 0 = ['0'] := by decide

theorem utoa_pos (n : Nat) (hn : 0 < n) :
    utoa n = (Nat.digits 10 n).reverse.map digitChar := by
  unfold utoa
  rw [utoaAux_eq (n + 1) n [] hn (by omega)]
  simp

theorem utoa_ne_nil (n : Nat) : utoa n ≠ [] := by
  rcases Nat.eq_zero_or_pos n with rfl | hn
  · decide
  · rw [utoa_pos n hn]
    simpa using Nat.digits_ne_nil_iff_ne_zero.mpr (by omega)

theorem utoa_isDigit (n : Nat) : ∀ c ∈ utoa n, isDigit c = true := by
  rcases Nat.eq_zero_or_pos n with rfl | hn
  · decide
  · rw [utoa_pos n hn]
    intro c hc
    simp only [List.map_reverse, List.mem_reverse, List.mem_map] at hc
    obtain ⟨d, hd, rfl⟩ := hc
    exact isDigit_digitChar d (Nat.digits_lt_base (by norm_num) hd)

theorem decimalValue_utoa (n : Nat) : decimalValue (utoa n) = n := by
  rcases Nat.eq_zero_or_pos n with rfl | hn
  · decide
  · rw [utoa_pos n hn]
    unfold decimalValue
    have : ((Nat.digits 10 n).reverse.map digitChar).reverse.map digitVal = Nat.digits 10 n := by
      rw [List.map_reverse, List.map_map, List.map_reverse, List.reverse_reverse]
      conv_rhs => rw [← List.map_id (Nat.digits 10 n)]
      apply List.map_congr_left
      intro d hd
      exact digitVal_digitChar d (Nat.digits_lt_base (by norm_num) hd)
    rw [this, Nat.ofDigits_digits]

/-- The text `Itoa v` denotes `v`, for `v` in the range of `int`. -/
theorem denotes_Itoa (intSize : Nat) (v : Int) (hv : InIntRange intSize v) :
    Denotes intSize (Itoa v) v := by
  refine ⟨hv, ?_⟩
  unfold Itoa
  split_ifs with hneg
  · refine ⟨utoa v.natAbs, utoa_ne_nil _, utoa_isDigit _, Or.inr (Or.inr ⟨rfl, ?_⟩)⟩
    rw [decimalValue_utoa]
    omega
  · refine ⟨utoa v.toNat, utoa_ne_nil _, utoa_isDigit _, Or.inl ⟨rfl, ?_⟩⟩
    rw [decimalValue_utoa]
    omega

/-- `Atoi` undoes `Itoa` on the range of `int`. -/
theorem Atoi_Itoa (intSize : Nat) (h : 2 ≤ intSize) (v : Int) (hv : InIntRange intSize v) :
    Atoi intSize (Itoa v) = (v, none) :=
  (Atoi_ok_iff intSize h _ _).mpr (denotes_Itoa intSize v hv)

theorem exists_intSize (a b : Int) :
    ∃ n, 2 ≤ n ∧ InIntRange n a ∧ InIntRange n b := by
  refine ⟨a.natAbs + b.natAbs + 2, by omega, ?_, ?_⟩
  all_goals
    rw [inIntRange_iff]
    have h1 : a.natAbs + b.natAbs + 1 < 2 ^ (a.natAbs + b.natAbs + 2 - 1) := by
      rw [show a.natAbs + b.natAbs + 2 - 1 = a.natAbs + b.natAbs + 1 from rfl]
      exact Nat.lt_two_pow _
    generalize 2 ^ (a.natAbs + b.natAbs + 2 - 1) = C at h1 ⊢
    omega

/-- Distinct integers have distinct decimal texts. -/
theorem Itoa_injective (a b : Int) (h : Itoa a = Itoa b) : a = b := by
  obtain ⟨n, hn, ha, hb⟩ := exists_intSize a b
  have h1 := Atoi_Itoa n hn a ha
  have h2 := Atoi_Itoa n hn b hb
  rw [h] at h1
  rw [h1] at h2
  simpa using h2

/-! ## Paths are distinct -/

theorem pwmPeriodPath_ne_duty (N : Int) : pwmPeriodPath N ≠ pwmDutyCyclePath N := by
  intro h
  have := congrArg String.data h
  simp [pwmPeriodPath, pwmDutyCyclePath, pwmPath] at this

theorem pwmEnablePath_ne_period (N : Int) : pwmEnablePath N ≠ pwmPeriodPath N := by
  intro h
  have := congrArg String.data h
  simp [pwmPeriodPath, pwmEnablePath, pwmPath] at this

theorem pwmEnablePath_ne_duty (N : Int) : pwmEnablePath N ≠ pwmDutyCyclePath N := by
  intro h
  have := congrArg String.data h
  simp [pwmDutyCyclePath, pwmEnablePath, pwmPath] at this

theorem pwmPeriodPath_ne_export (N : Int) :
    pwmPeriodPath N ≠ pwmExportPath ∧ pwmPeriodPath N ≠ pwmUnExportPath := by
  constructor <;> intro h <;> have := congrArg String.data h <;>
    simp [pwmPeriodPath, pwmExportPath, pwmUnExportPath, pwmPath] at this

theorem pwmDutyCyclePath_ne_export (N : Int) :
    pwmDutyCyclePath N ≠ pwmExportPath ∧ pwmDutyCyclePath N ≠ pwmUnExportPath := by
  constructor <;> intro h <;> have := congrArg String.data h <;>
    simp [pwmDutyCyclePath, pwmExportPath, pwmUnExportPath, pwmPath] at this

theorem pwmEnablePath_ne_export (N : Int) :
    pwmEnablePath N ≠ pwmExportPath ∧ pwmEnablePath N ≠ pwmUnExportPath := by
  constructor <;> intro h <;> have := congrArg String.data h <;>
    simp [pwmEnablePath, pwmExportPath, pwmUnExportPath, pwmPath] at this

/-! ## The methods, step by step -/

theorem slice_init (buf : List Char) :
    slice buf 0 ((buf.length : Int) - 1) = if buf = [] then none else some buf.dropLast := by
  unfold slice
  cases buf with
  | nil => simp
  | cons c cs =>
    have h : (0 : Int) ≤ ((c :: cs).length : Int) - 1 := by
      simp only [List.length_cons]; push_cast; omega
    simp only [le_refl, h, true_and, sub_le_self_iff, zero_le_one, if_true, Int.toNat_zero,
      List.drop_zero]
    have e : (((c :: cs).length : Int) - 1).toNat = (c :: cs).length - 1 := by
      simp only [List.length_cons]; push_cast; omega
    rw [e, List.dropLast_eq_take]
    simp

theorem duty_of_read_error {σ : Type} (env : Env σ) (p : pwmPin) (s s1 : σ)
    (buf : List Char) (e : GoError)
    (h : env.readFile (pwmDutyCyclePath p.pin) s = ((buf, some e), s1)) :
    p.duty env s = (.returned (0, some e), s1) := by
  simp [pwmPin.duty, h]

theorem duty_of_empty {σ : Type} (env : Env σ) (p : pwmPin) (s s1 : σ)
    (h : env.readFile (pwmDutyCyclePath p.pin) s = (([], none), s1)) :
    p.duty env s = (.panicked "slice bounds out of range", s1) := by
  have e : slice [] 0 (-1) = none := by decide
  simp [pwmPin.duty, h, e]

theorem duty_of_content {σ : Type} (env : Env σ) (p : pwmPin) (s s1 : σ)
    (buf : List Char) (hne : buf ≠ [])
    (h : env.readFile (pwmDutyCyclePath p.pin) s = ((buf, none), s1)) :
    p.duty env s =
      match Atoi env.intSize buf.dropLast with
      | (_, some err) => (.returned (0, some err), s1)
      | (duty, none) => (.returned (duty, none), s1) := by
  simp [pwmPin.duty, h, slice_init, hne]

theorem period_of_read_error {σ : Type} (env : Env σ) (p : pwmPin) (s s1 : σ)
    (buf : List Char) (e : GoError)
    (h : env.readFile (pwmPeriodPath p.pin) s = ((buf, some e), s1)) :
    p.period env s = (.returned (0, some e), s1) := by
  simp [pwmPin.period, h]

theorem period_of_empty {σ : Type} (env : Env σ) (p : pwmPin) (s s1 : σ)
    (h : env.readFile (pwmPeriodPath p.pin) s = (([], none), s1)) :
    p.period env s = (.panicked "slice bounds out of range", s1) := by
  have e : slice [] 0 (-1) = none := by decide
  simp [pwmPin.period, h, e]

theorem period_of_content {σ : Type} (env : Env σ) (p : pwmPin) (s s1 : σ)
    (buf : List Char) (hne : buf ≠ [])
    (h : env.readFile (pwmPeriodPath p.pin) s = ((buf, none), s1)) :
    p.period env s =
      match Atoi env.intSize buf.dropLast with
      | (_, some err) => (.returned (0, some err), s1)
      | (period, none) => (.returned (period, none), s1) := by
  simp [pwmPin.period, h, slice_init, hne]

/-- In the logged environment `duty()` does what it does in the environment
itself and appends one event, the read of the duty_cycle file. -/
theorem duty_logged {σ : Type} (env : Env σ) (p : pwmPin) (s : σ) (log : List IOEvent) :
    p.duty env.logged (s, log) =
      ((p.duty env s).1, ((p.duty env s).2, log ++ [IOEvent.read (pwmDutyCyclePath p.pin)])) := by
  simp only [pwmPin.duty, Env.logged]
  rcases h : env.readFile (pwmDutyCyclePath p.pin) s with ⟨⟨buf, _ | e⟩, s1⟩
  · simp only
    cases slice buf 0 ((buf.length : Int) - 1) with
    | none => rfl
    | some txt =>
      simp only
      rcases Atoi env.intSize txt with ⟨v, _ | e⟩ <;> rfl
  · rfl

theorem duty_recording {σ : Type} (env : Env σ) (p : pwmPin) (s : σ) (hist : List σ) :
    p.duty env.recording (s, hist) = ((p.duty env s).1, ((p.duty env s).2, hist)) := by
  simp only [pwmPin.duty, Env.recording]
  rcases h : env.readFile (pwmDutyCyclePath p.pin) s with ⟨⟨buf, _ | e⟩, s1⟩
  · simp only
    cases slice buf 0 ((buf.length : Int) - 1) with
    | none => rfl
    | some txt =>
      simp only
      rcases Atoi env.intSize txt with ⟨v, _ | e⟩ <;> rfl
  · rfl

/-- What `pwmWrite` does once `duty()` has returned `curDuty`: the two writes
in the order fixed by `period ≥ curDuty`, the second one only when the first
one returned a nil error. -/
theorem pwmWrite_of_duty {σ : Type} (env : Env σ) (p : pwmPin) (period duty curDuty : Int)
    (s s1 : σ) (h : duty ≤ period) (hd : p.duty env s = (.returned (curDuty, none), s1)) :
    p.pwmWrite env period duty s =
      if period ≥ curDuty then
        match env.writeFile (pwmPeriodPath p.pin) (Itoa period) s1 with
        | ((_, none), s2) =>
          ((.returned (env.writeFile (pwmDutyCyclePath p.pin) (Itoa duty) s2).1.2),
            (env.writeFile (pwmDutyCyclePath p.pin) (Itoa duty) s2).2)
        | ((_, some err), s2) => (.returned (some err), s2)
      else
        match env.writeFile (pwmDutyCyclePath p.pin) (Itoa duty) s1 with
        | ((_, none), s2) =>
          ((.returned (env.writeFile (pwmPeriodPath p.pin) (Itoa period) s2).1.2),
            (env.writeFile (pwmPeriodPath p.pin) (Itoa period) s2).2)
        | ((_, some err), s2) => (.returned (some err), s2) := by
  unfold pwmPin.pwmWrite
  rw [if_neg (by omega), hd]

theorem pwmWrite_of_duty_error {σ : Type} (env : Env σ) (p : pwmPin) (period duty v : Int)
    (e : GoError) (s s1 : σ) (h : duty ≤ period)
    (hd : p.duty env s = (.returned (v, some e), s1)) :
    p.pwmWrite env period duty s = (.returned (some e), s1) := by
  unfold pwmPin.pwmWrite
  rw [if_neg (by omega), hd]

theorem pwmWrite_of_duty_panic {σ : Type} (env : Env σ) (p : pwmPin) (period duty : Int)
    (msg : String) (s s1 : σ) (h : duty ≤ period)
    (hd : p.duty env s = (.panicked msg, s1)) :
    p.pwmWrite env period duty s = (.panicked msg, s1) := by
  unfold pwmPin.pwmWrite
  rw [if_neg (by omega), hd]

/-- In the logged environment, once `duty()` has returned `curDuty`,
`pwmWrite` appends the read and then its writes to the log. -/
theorem pwmWrite_logged_of_duty {σ : Type} (env : Env σ) (p : pwmPin)
    (period duty curDuty : Int) (s s1 : σ) (log : List IOEvent) (h : duty ≤ period)
    (hd : p.duty env s = (.returned (curDuty, none), s1)) :
    p.pwmWrite env.logged period duty (s, log) =
      if period ≥ curDuty then
        match env.writeFile (pwmPeriodPath p.pin) (Itoa period) s1 with
        | ((_, none), s2) =>
          ((.returned (env.writeFile (pwmDutyCyclePath p.pin) (Itoa duty) s2).1.2),
            ((env.writeFile (pwmDutyCyclePath p.pin) (Itoa duty) s2).2,
              log ++ [IOEvent.read (pwmDutyCyclePath p.pin),
                IOEvent.write (pwmPeriodPath p.pin) (Itoa period),
                IOEvent.write (pwmDutyCyclePath p.pin) (Itoa duty)]))
        | ((_, some err), s2) =>
          (.returned (some err),
            (s2, log ++ [IOEvent.read (pwmDutyCyclePath p.pin),
              IOEvent.write (pwmPeriodPath p.pin) (Itoa period)]))
      else
        match env.writeFile (pwmDutyCyclePath p.pin) (Itoa duty) s1 with
        | ((_, none), s2) =>
          ((.returned (env.writeFile (pwmPeriodPath p.pin) (Itoa period) s2).1.2),
            ((env.writeFile (pwmPeriodPath p.pin) (Itoa period) s2).2,
              log ++ [IOEvent.read (pwmDutyCyclePath p.pin),
                IOEvent.write (pwmDutyCyclePath p.pin) (Itoa duty),
                IOEvent.write (pwmPeriodPath p.pin) (Itoa period)]))
        | ((_, some err), s2) =>
          (.returned (some err),
            (s2, log ++ [IOEvent.read (pwmDutyCyclePath p.pin),
              IOEvent.write (pwmDutyCyclePath p.pin) (Itoa duty)])) := by
  have hd2 : p.duty env.logged (s, log) =
      (.returned (curDuty, none), (s1, log ++ [IOEvent.read (pwmDutyCyclePath p.pin)])) := by
    rw [duty_logged, hd]
  rw [pwmWrite_of_duty env.logged p period duty curDuty _ _ h hd2]
  simp only [Env.logged]
  split_ifs with hb
  · rcases hw : env.writeFile (pwmPeriodPath p.pin) (Itoa period) s1 with ⟨⟨n, _ | e⟩, s2⟩ <;>
      simp
  · rcases hw : env.writeFile (pwmDutyCyclePath p.pin) (Itoa duty) s1 with ⟨⟨n, _ | e⟩, s2⟩ <;>
      simp

/-! ## The file model -/

theorem sysfs_read_duty (intSize : Nat) (N : Int) (s : Sysfs) (h : s.exported = true) :
    (sysfs intSize N).readFile (pwmDutyCyclePath N) s = ((s.duty_cycle ++ ['\n'], none), s) := by
  simp [sysfs, h, (pwmPeriodPath_ne_duty N).symm]

theorem sysfs_read_period (intSize : Nat) (N : Int) (s : Sysfs) (h : s.exported = true) :
    (sysfs intSize N).readFile (pwmPeriodPath N) s = ((s.period ++ ['\n'], none), s) := by
  simp [sysfs, h]

theorem sysfs_read_unexported (intSize : Nat) (N : Int) (s : Sysfs) (path : String)
    (h : s.exported = false) :
    (sysfs intSize N).readFile path s = (([], some (.fileError "ENOENT")), s) := by
  simp [sysfs, h]

theorem sysfs_write_period (intSize : Nat) (N : Int) (s : Sysfs) (data : List Char)
    (h : s.exported = true) :
    (sysfs intSize N).writeFile (pwmPeriodPath N) data s =
      (((data.length : Int), none), { s with period := data }) := by
  simp [sysfs, h, (pwmPeriodPath_ne_export N).1, (pwmPeriodPath_ne_export N).2]

theorem sysfs_write_duty (intSize : Nat) (N : Int) (s : Sysfs) (data : List Char)
    (h : s.exported = true) :
    (sysfs intSize N).writeFile (pwmDutyCyclePath N) data s =
      (((data.length : Int), none), { s with duty_cycle := data }) := by
  simp [sysfs, h, (pwmDutyCyclePath_ne_export N).1, (pwmDutyCyclePath_ne_export N).2,
    (pwmPeriodPath_ne_duty N).symm]

/-- On an exported channel whose duty_cycle file holds the decimal text of an
integer of the `int` range, `duty()` returns that integer. -/
theorem sysfs_duty (intSize : Nat) (N : Int) (h2 : 2 ≤ intSize) (s : Sysfs) (d : Int)
    (he : s.exported = true) (hs : s.duty_cycle = Itoa d) (hd : InIntRange intSize d) :
    pwmPin.duty (sysfs intSize N) ⟨N⟩ s = (.returned (d, none), s) := by
  rw [duty_of_content (sysfs intSize N) ⟨N⟩ s s (s.duty_cycle ++ ['\n']) (by simp)
    (sysfs_read_duty intSize N s he)]
  have : (sysfs intSize N).intSize = intSize := rfl
  rw [List.dropLast_concat, hs, this, Atoi_Itoa intSize h2 d hd]

theorem sysfs_period (intSize : Nat) (N : Int) (h2 : 2 ≤ intSize) (s : Sysfs) (v : Int)
    (he : s.exported = true) (hs : s.period = Itoa v) (hv : InIntRange intSize v) :
    pwmPin.period (sysfs intSize N) ⟨N⟩ s = (.returned (v, none), s) := by
  rw [period_of_content (sysfs intSize N) ⟨N⟩ s s (s.period ++ ['\n']) (by simp)
    (sysfs_read_period intSize N s he)]
  have : (sysfs intSize N).intSize = intSize := rfl
  rw [List.dropLast_concat, hs, this, Atoi_Itoa intSize h2 v hv]

/-- The pair stored by `Sysfs.ofPair period duty` is `(period, duty)` and no
other. -/
theorem stores_ofPair (period duty a b : Int) (h : (Sysfs.ofPair period duty).Stores a b) :
    period = a ∧ duty = b :=
  ⟨Itoa_injective _ _ h.2.1, Itoa_injective _ _ h.2.2⟩

theorem inIntRange_mono (n m : Nat) (h : n ≤ m) (v : Int) (hv : InIntRange n v) :
    InIntRange m v := by
  rw [inIntRange_iff] at hv ⊢
  have : 2 ^ (n - 1) ≤ 2 ^ (m - 1) := Nat.pow_le_pow_right (by norm_num) (by omega)
  generalize 2 ^ (n - 1) = A at this hv
  generalize 2 ^ (m - 1) = B at this ⊢
  omega

/-- When `Atoi` accepts the decimal text of `c`, it returns `c`. -/
theorem Atoi_Itoa_value (intSize : Nat) (h2 : 2 ≤ intSize) (c v : Int)
    (h : Atoi intSize (Itoa c) = (v, none)) : v = c ∧ InIntRange intSize c := by
  obtain ⟨hr, hden⟩ := (Atoi_ok_iff intSize h2 _ _).mp h
  obtain ⟨n, hn, hc, _⟩ := exists_intSize c c
  have hc2 : InIntRange (max n intSize) c := inIntRange_mono n _ (le_max_left _ _) c hc
  have hv2 : InIntRange (max n intSize) v := inIntRange_mono intSize _ (le_max_right _ _) v hr
  have e1 := Atoi_Itoa (max n intSize) (by omega) c hc2
  have e2 := (Atoi_ok_iff (max n intSize) (by omega) (Itoa c) v).mpr ⟨hv2, hden⟩
  rw [e1] at e2
  have : v = c := by simpa using e2.symm
  exact ⟨this, this ▸ hr⟩

/-- On an exported channel whose duty_cycle file holds the decimal text of
`d`, `duty()` returns `d`, or an error when `d` is outside the `int` range;
the state is left as it is. -/
theorem sysfs_duty_cases (intSize : Nat) (N : Int) (h2 : 2 ≤ intSize) (s : Sysfs) (d : Int)
    (he : s.exported = true) (hs : s.duty_cycle = Itoa d) :
    (InIntRange intSize d ∧ pwmPin.duty (sysfs intSize N) ⟨N⟩ s = (.returned (d, none), s)) ∨
    (¬ InIntRange intSize d ∧
      ∃ e, pwmPin.duty (sysfs intSize N) ⟨N⟩ s = (.returned (0, some e), s)) := by
  by_cases hd : InIntRange intSize d
  · exact Or.inl ⟨hd, sysfs_duty intSize N h2 s d he hs hd⟩
  · refine Or.inr ⟨hd, ?_⟩
    rw [duty_of_content (sysfs intSize N) ⟨N⟩ s s (s.duty_cycle ++ ['\n']) (by simp)
      (sysfs_read_duty intSize N s he)]
    have : (sysfs intSize N).intSize = intSize := rfl
    rw [List.dropLast_concat, hs, this]
    rcases hA : Atoi intSize (Itoa d) with ⟨v, _ | e⟩
    · exact absurd (Atoi_Itoa_value intSize h2 d v hA).2 hd
    · exact ⟨e, rfl⟩

/-- In the recording environment, once `duty()` has returned `curDuty`,
`pwmWrite` appends the state reached after each of its writes. -/
theorem pwmWrite_recording_of_duty {σ : Type} (env : Env σ) (p : pwmPin)
    (period duty curDuty : Int) (s s1 : σ) (hist : List σ) (h : duty ≤ period)
    (hd : p.duty env s = (.returned (curDuty, none), s1)) :
    p.pwmWrite env.recording period duty (s, hist) =
      if period ≥ curDuty then
        match env.writeFile (pwmPeriodPath p.pin) (Itoa period) s1 with
        | ((_, none), s2) =>
          ((.returned (env.writeFile (pwmDutyCyclePath p.pin) (Itoa duty) s2).1.2),
            ((env.writeFile (pwmDutyCyclePath p.pin) (Itoa duty) s2).2,
              hist ++ [s2, (env.writeFile (pwmDutyCyclePath p.pin) (Itoa duty) s2).2]))
        | ((_, some err), s2) => (.returned (some err), (s2, hist ++ [s2]))
      else
        match env.writeFile (pwmDutyCyclePath p.pin) (Itoa duty) s1 with
        | ((_, none), s2) =>
          ((.returned (env.writeFile (pwmPeriodPath p.pin) (Itoa period) s2).1.2),
            ((env.writeFile (pwmPeriodPath p.pin) (Itoa period) s2).2,
              hist ++ [s2, (env.writeFile (pwmPeriodPath p.pin) (Itoa period) s2).2]))
        | ((_, some err), s2) => (.returned (some err), (s2, hist ++ [s2])) := by
  have hd2 : p.duty env.recording (s, hist) = (.returned (curDuty, none), (s1, hist)) := by
    rw [duty_recording, hd]
  rw [pwmWrite_of_duty env.recording p period duty curDuty _ _ h hd2]
  simp only [Env.recording]
  split_ifs with hb
  · rcases hw : env.writeFile (pwmPeriodPath p.pin) (Itoa period) s1 with ⟨⟨n, _ | e⟩, s2⟩ <;>
      simp
  · rcases hw : env.writeFile (pwmDutyCyclePath p.pin) (Itoa duty) s1 with ⟨⟨n, _ | e⟩, s2⟩ <;>
      simp

/-! ## The claims -/

/-- C3, validation short-circuit of `pwmWrite`: when `duty > period`,
`pwmWrite(period, duty)` returns the non-nil validation error and performs no
I/O: in the logged environment the log and the file state come out exactly as
they went in, whatever the environment and the pin. -/
theorem pwmWrite_validation_short_circuit {σ : Type} (env : Env σ) (p : pwmPin)
    (period duty : Int) (s : σ) (log : List IOEvent) (h : duty > period) :
    p.pwmWrite env.logged period duty (s, log) =
      (.returned (some (.errorf (dutyGreaterMsg period duty))), (s, log)) := by
  unfold pwmPin.pwmWrite
  rw [if_pos h]

/-- Witness of C3: `pwmWrite(100, 200)` on an exported channel holding
`(period = 1000, duty = 500)`. -/
theorem pwmWrite_validation_short_circuit_witness :
    (200 : Int) > 100 ∧
      pwmPin.pwmWrite (sysfs 64 3).logged ⟨3⟩ 100 200 (Sysfs.ofPair 1000 500, []) =
        (.returned (some (.errorf "duty cannot be greater than period: 200 > 100".toList)),
          (Sysfs.ofPair 1000 500, [])) :=
  ⟨by decide,
    pwmWrite_validation_short_circuit (sysfs 64 3) ⟨3⟩ 100 200 (Sysfs.ofPair 1000 500) []
      (by decide)⟩

/-- C2, write order and I/O trace of `pwmWrite`: for `duty ≤ period`, when
`duty()` obtains `curDuty` from the duty_cycle file and no write fails (that
is, `pwmWrite` returns nil), the calls `pwmWrite` makes are exactly: one read
of `pwm<N>/duty_cycle`, then, if `period ≥ curDuty`, the write of the decimal
text of `period` to `pwm<N>/period` followed by the write of the decimal text
of `duty` to `pwm<N>/duty_cycle`, and, if `period < curDuty`, the same two
writes in the opposite order.  The period file is never read. -/
theorem pwmWrite_trace {σ : Type} (env : Env σ) (p : pwmPin) (period duty curDuty : Int)
    (s s1 : σ) (h : duty ≤ period)
    (hd : p.duty env s = (.returned (curDuty, none), s1))
    (hok : (p.pwmWrite env period duty s).1 = .returned none) :
    (p.pwmWrite env.logged period duty (s, [])).1 = .returned none ∧
    (p.pwmWrite env.logged period duty (s, [])).2.2 =
      if period ≥ curDuty then
        [IOEvent.read (pwmDutyCyclePath p.pin),
          IOEvent.write (pwmPeriodPath p.pin) (Itoa period),
          IOEvent.write (pwmDutyCyclePath p.pin) (Itoa duty)]
      else
        [IOEvent.read (pwmDutyCyclePath p.pin),
          IOEvent.write (pwmDutyCyclePath p.pin) (Itoa duty),
          IOEvent.write (pwmPeriodPath p.pin) (Itoa period)] := by
  rw [pwmWrite_of_duty env p period duty curDuty s s1 h hd] at hok
  rw [pwmWrite_logged_of_duty env p period duty curDuty s s1 [] h hd]
  split_ifs with hb
  · rw [if_pos hb] at hok
    rcases hw : env.writeFile (pwmPeriodPath p.pin) (Itoa period) s1 with ⟨⟨n, _ | e⟩, s2⟩
    · rw [hw] at hok
      simpa using hok
    · rw [hw] at hok
      simp at hok
  · rw [if_neg hb] at hok
    rcases hw : env.writeFile (pwmDutyCyclePath p.pin) (Itoa duty) s1 with ⟨⟨n, _ | e⟩, s2⟩
    · rw [hw] at hok
      simpa using hok
    · rw [hw] at hok
      simp at hok

/-- Witness of C2, the two runs named by the claim: from
`(period = 1000, duty = 500)`, `pwmWrite(2000, 1800)` writes the period and
then the duty; from `(period = 2000, duty = 1800)`, `pwmWrite(1000, 500)`
writes the duty and then the period. -/
theorem pwmWrite_trace_witness :
    (pwmPin.pwmWrite (sysfs 64 3).logged ⟨3⟩ 2000 1800 (Sysfs.ofPair 1000 500, [])).2.2 =
        [IOEvent.read "/sys/class/pwm/pwmchip0/pwm3/duty_cycle",
          IOEvent.write "/sys/class/pwm/pwmchip0/pwm3/period" "2000".toList,
          IOEvent.write "/sys/class/pwm/pwmchip0/pwm3/duty_cycle" "1800".toList] ∧
      (pwmPin.pwmWrite (sysfs 64 3).logged ⟨3⟩ 1000 500 (Sysfs.ofPair 2000 1800, [])).2.2 =
        [IOEvent.read "/sys/class/pwm/pwmchip0/pwm3/duty_cycle",
          IOEvent.write "/sys/class/pwm/pwmchip0/pwm3/duty_cycle" "500".toList,
          IOEvent.write "/sys/class/pwm/pwmchip0/pwm3/period" "1000".toList] :=
  ⟨(pwmWrite_trace (sysfs 64 3) ⟨3⟩ 2000 1800 500 (Sysfs.ofPair 1000 500)
      (Sysfs.ofPair 1000 500) (by decide) (by decide) (by decide)).2,
    (pwmWrite_trace (sysfs 64 3) ⟨3⟩ 1000 500 1800 (Sysfs.ofPair 2000 1800)
      (Sysfs.ofPair 2000 1800) (by decide) (by decide) (by decide)).2⟩

/-- C4, fail-fast error propagation of `pwmWrite`: for `duty ≤ period`,
`pwmWrite` stops at its first failing step and returns that step's error.
(1) If `duty()` returns an error, `pwmWrite` returns that error and the only
call made is the read of the duty_cycle file: zero writes.  (2) `duty()`
returns the error of `readFile` when the read fails, and (3) the error of
`Atoi` when the content read, its last byte removed, does not parse.  (4) and
(5): if the first write of the chosen order fails (the period write when
`period ≥ curDuty`, the duty write otherwise), `pwmWrite` returns that write's
error and the log ends with that write: the second write is not attempted.
(6) and (7): if the first write returns nil and the second write fails,
`pwmWrite` returns the error of the second write, after the read and the two
writes, in either branch. -/
theorem pwmWrite_fail_fast {σ : Type} (env : Env σ) (p : pwmPin) (period duty : Int) (s : σ)
    (h : duty ≤ period) :
    (∀ v e s1, p.duty env s = (.returned (v, some e), s1) →
      p.pwmWrite env.logged period duty (s, []) =
        (.returned (some e), (s1, [IOEvent.read (pwmDutyCyclePath p.pin)]))) ∧
    (∀ buf e s1, env.readFile (pwmDutyCyclePath p.pin) s = ((buf, some e), s1) →
      p.duty env s = (.returned (0, some e), s1)) ∧
    (∀ buf v e s1, env.readFile (pwmDutyCyclePath p.pin) s = ((buf, none), s1) → buf ≠ [] →
      Atoi env.intSize buf.dropLast = (v, some e) →
      p.duty env s = (.returned (0, some e), s1)) ∧
    (∀ curDuty s1 n e s2, p.duty env s = (.returned (curDuty, none), s1) →
      period ≥ curDuty →
      env.writeFile (pwmPeriodPath p.pin) (Itoa period) s1 = ((n, some e), s2) →
      p.pwmWrite env.logged period duty (s, []) =
        (.returned (some e),
          (s2, [IOEvent.read (pwmDutyCyclePath p.pin),
            IOEvent.write (pwmPeriodPath p.pin) (Itoa period)]))) ∧
    (∀ curDuty s1 n e s2, p.duty env s = (.returned (curDuty, none), s1) →
      period < curDuty →
      env.writeFile (pwmDutyCyclePath p.pin) (Itoa duty) s1 = ((n, some e), s2) →
      p.pwmWrite env.logged period duty (s, []) =
        (.returned (some e),
          (s2, [IOEvent.read (pwmDutyCyclePath p.pin),
            IOEvent.write (pwmDutyCyclePath p.pin) (Itoa duty)]))) ∧
    (∀ curDuty s1 n s2 m e s3, p.duty env s = (.returned (curDuty, none), s1) →
      period ≥ curDuty →
      env.writeFile (pwmPeriodPath p.pin) (Itoa period) s1 = ((n, none), s2) →
      env.writeFile (pwmDutyCyclePath p.pin) (Itoa duty) s2 = ((m, some e), s3) →
      p.pwmWrite env.logged period duty (s, []) =
        (.returned (some e),
          (s3, [IOEvent.read (pwmDutyCyclePath p.pin),
            IOEvent.write (pwmPeriodPath p.pin) (Itoa period),
            IOEvent.write (pwmDutyCyclePath p.pin) (Itoa duty)]))) ∧
    (∀ curDuty s1 n s2 m e s3, p.duty env s = (.returned (curDuty, none), s1) →
      period < curDuty →
      env.writeFile (pwmDutyCyclePath p.pin) (Itoa duty) s1 = ((n, none), s2) →
      env.writeFile (pwmPeriodPath p.pin) (Itoa period) s2 = ((m, some e), s3) →
      p.pwmWrite env.logged period duty (s, []) =
        (.returned (some e),
          (s3, [IOEvent.read (pwmDutyCyclePath p.pin),
            IOEvent.write (pwmDutyCyclePath p.pin) (Itoa duty),
            IOEvent.write (pwmPeriodPath p.pin) (Itoa period)]))) := by
  refine ⟨?_, ?_, ?_, ?_, ?_, ?_, ?_⟩
  · intro v e s1 hd
    have hd2 : p.duty env.logged (s, []) =
        (.returned (v, some e), (s1, [] ++ [IOEvent.read (pwmDutyCyclePath p.pin)])) := by
      rw [duty_logged, hd]
    rw [pwmWrite_of_duty_error env.logged p period duty v e _ _ h hd2]
    rfl
  · intro buf e s1 hr
    exact duty_of_read_error env p s s1 buf e hr
  · intro buf v e s1 hr hne ha
    rw [duty_of_content env p s s1 buf hne hr, ha]
  · intro curDuty s1 n e s2 hd hb hw
    rw [pwmWrite_logged_of_duty env p period duty curDuty s s1 [] h hd, if_pos hb, hw]
    rfl
  · intro curDuty s1 n e s2 hd hb hw
    rw [pwmWrite_logged_of_duty env p period duty curDuty s s1 [] h hd, if_neg (by omega), hw]
    rfl
  · intro curDuty s1 n s2 m e s3 hd hb hw1 hw2
    rw [pwmWrite_logged_of_duty env p period duty curDuty s s1 [] h hd, if_pos hb, hw1]
    simp only
    rw [hw2]
    rfl
  · intro curDuty s1 n s2 m e s3 hd hb hw1 hw2
    rw [pwmWrite_logged_of_duty env p period duty curDuty s s1 [] h hd, if_neg (by omega), hw1]
    simp only
    rw [hw2]
    rfl

/-- Witness of C4 on scripted file primitives: a failing read, a content that
does not parse, a failing period write (period first), a failing duty write
(duty first), and a failing second write in each of the two orders. -/
theorem pwmWrite_fail_fast_witness :
    pwmPin.pwmWrite (scripted 64).logged ⟨3⟩ 1000 500
        ([([], some (.fileError "EACCES"))], []) =
      (.returned (some (.fileError "EACCES")),
        ([], [IOEvent.read "/sys/class/pwm/pwmchip0/pwm3/duty_cycle"])) ∧
    pwmPin.pwmWrite (scripted 64).logged ⟨3⟩ 1000 500 ([("abc\n".toList, none)], []) =
      (.returned (some (.numError "abc".toList .malformed)),
        ([], [IOEvent.read "/sys/class/pwm/pwmchip0/pwm3/duty_cycle"])) ∧
    pwmPin.pwmWrite (scripted 64).logged ⟨3⟩ 2000 1800
        ([("500\n".toList, none), ([], some (.fileError "EINVAL")), ([], none)], []) =
      (.returned (some (.fileError "EINVAL")),
        ([([], none)], [IOEvent.read "/sys/class/pwm/pwmchip0/pwm3/duty_cycle",
          IOEvent.write "/sys/class/pwm/pwmchip0/pwm3/period" "2000".toList])) ∧
    pwmPin.pwmWrite (scripted 64).logged ⟨3⟩ 1000 500
        ([("1800\n".toList, none), ([], some (.fileError "EINVAL")), ([], none)], []) =
      (.returned (some (.fileError "EINVAL")),
        ([([], none)], [IOEvent.read "/sys/class/pwm/pwmchip0/pwm3/duty_cycle",
          IOEvent.write "/sys/class/pwm/pwmchip0/pwm3/duty_cycle" "500".toList])) ∧
    pwmPin.pwmWrite (scripted 64).logged ⟨3⟩ 2000 1800
        ([("500\n".toList, none), ([], none), ([], some (.fileError "EINVAL"))], []) =
      (.returned (some (.fileError "EINVAL")),
        ([], [IOEvent.read "/sys/class/pwm/pwmchip0/pwm3/duty_cycle",
          IOEvent.write "/sys/class/pwm/pwmchip0/pwm3/period" "2000".toList,
          IOEvent.write "/sys/class/pwm/pwmchip0/pwm3/duty_cycle" "1800".toList])) ∧
    pwmPin.pwmWrite (scripted 64).logged ⟨3⟩ 1000 500
        ([("1800\n".toList, none), ([], none), ([], some (.fileError "EINVAL"))], []) =
      (.returned (some (.fileError "EINVAL")),
        ([], [IOEvent.read "/sys/class/pwm/pwmchip0/pwm3/duty_cycle",
          IOEvent.write "/sys/class/pwm/pwmchip0/pwm3/duty_cycle" "500".toList,
          IOEvent.write "/sys/class/pwm/pwmchip0/pwm3/period" "1000".toList])) :=
  ⟨(pwmWrite_fail_fast (scripted 64) ⟨3⟩ 1000 500 [([], some (.fileError "EACCES"))]
      (by decide)).1 0 (.fileError "EACCES") [] (by decide),
    (pwmWrite_fail_fast (scripted 64) ⟨3⟩ 1000 500 [("abc\n".toList, none)]
      (by decide)).1 0 (.numError "abc".toList .malformed) [] (by decide),
    (pwmWrite_fail_fast (scripted 64) ⟨3⟩ 2000 1800
      [("500\n".toList, none), ([], some (.fileError "EINVAL")), ([], none)]
      (by decide)).2.2.2.1 500 [([], some (.fileError "EINVAL")), ([], none)] 4
        (.fileError "EINVAL") [([], none)] (by decide) (by decide) (by decide),
    (pwmWrite_fail_fast (scripted 64) ⟨3⟩ 1000 500
      [("1800\n".toList, none), ([], some (.fileError "EINVAL")), ([], none)]
      (by decide)).2.2.2.2.1 1800 [([], some (.fileError "EINVAL")), ([], none)] 3
        (.fileError "EINVAL") [([], none)] (by decide) (by decide) (by decide),
    (pwmWrite_fail_fast (scripted 64) ⟨3⟩ 2000 1800
      [("500\n".toList, none), ([], none), ([], some (.fileError "EINVAL"))]
      (by decide)).2.2.2.2.2.1 500 [([], none), ([], some (.fileError "EINVAL"))] 4
        [([], some (.fileError "EINVAL"))] 4 (.fileError "EINVAL") []
        (by decide) (by decide) (by decide) (by decide),
    (pwmWrite_fail_fast (scripted 64) ⟨3⟩ 1000 500
      [("1800\n".toList, none), ([], none), ([], some (.fileError "EINVAL"))]
      (by decide)).2.2.2.2.2.2 1800 [([], none), ([], some (.fileError "EINVAL"))] 3
        [([], some (.fileError "EINVAL"))] 4 (.fileError "EINVAL") []
        (by decide) (by decide) (by decide) (by decide)⟩

/-- C6, evaluated at the empty content: when `readFile` hands back no bytes
and a nil error, `duty()`, `period()` and `pwmWrite` do not return a value or
an error but panic in the slice expression `buf[0 : len(buf)-1]`, whose upper
bound is then `-1`. -/
theorem empty_content_panics (intSize : Nat) (p : pwmPin)
    (rest : List (List Char × Option GoError)) :
    p.duty (scripted intSize) (([], none) :: rest) =
      (.panicked "slice bounds out of range", rest) ∧
    p.period (scripted intSize) (([], none) :: rest) =
      (.panicked "slice bounds out of range", rest) ∧
    p.pwmWrite (scripted intSize) 1000 500 (([], none) :: rest) =
      (.panicked "slice bounds out of range", rest) := by
  have hd := duty_of_empty (scripted intSize) p (([], none) :: rest) rest rfl
  exact ⟨hd, period_of_empty (scripted intSize) p (([], none) :: rest) rest rfl,
    pwmWrite_of_duty_panic (scripted intSize) p 1000 500 _ _ _ (by decide) hd⟩

/-- C9, evaluated on the code: `newPwmPin(pin)` calls neither `readFile` nor
`writeFile`; in the logged environment the log and the state come out as they
went in, so nothing has been written to the export file or to the enable
file.  On a channel that is not exported the handle it returns cannot be
read: `duty()` fails with the error of `readFile`. -/
theorem newPwmPin_no_io {σ : Type} (env : Env σ) (pin : Int) (s : σ) (log : List IOEvent) :
    newPwmPin env.logged pin (s, log) = (⟨pin⟩, (s, log)) ∧
    (newPwmPin (sysfs 64 3).logged 3 (⟨false, [], [], []⟩, [])).2.2 = [] ∧
    pwmPin.duty (sysfs 64 3) (newPwmPin (sysfs 64 3) 3 ⟨false, [], [], []⟩).1
        (newPwmPin (sysfs 64 3) 3 ⟨false, [], [], []⟩).2 =
      (.returned (0, some (.fileError "ENOENT")), ⟨false, [], [], []⟩) :=
  ⟨rfl, by decide, by decide⟩

/-- C1, invariant preservation of `pwmWrite`.  The period and duty_cycle files
of the channel hold the pair `(curPeriod, curDuty)` with `curDuty ≤ curPeriod`,
the target is `(period, duty)` with `duty ≤ period`, and every write is
applied as it comes.  Then every state reached after a write of
`pwmWrite(period, duty)` stores a pair, and the pair it stores has
`duty ≤ period`.  When `curDuty`
is in the range of `int` the run returns nil after two writes: the first
leaves `(period, curDuty)` if `period ≥ curDuty` and `(curPeriod, duty)`
otherwise, the second leaves `(period, duty)`. -/
theorem pwmWrite_preserves_invariant (intSize : Nat) (N : Int) (h2 : 2 ≤ intSize)
    (curPeriod curDuty period duty : Int) (hcur : curDuty ≤ curPeriod) (htgt : duty ≤ period) :
    (∀ st ∈ (pwmPin.pwmWrite (sysfs intSize N).recording ⟨N⟩ period duty
        (Sysfs.ofPair curPeriod curDuty, [])).2.2,
      (∃ a b, st.Stores a b) ∧ ∀ a b, st.Stores a b → b ≤ a) ∧
    (InIntRange intSize curDuty →
      pwmPin.pwmWrite (sysfs intSize N).recording ⟨N⟩ period duty
          (Sysfs.ofPair curPeriod curDuty, []) =
        (.returned none,
          (Sysfs.ofPair period duty,
            [if period ≥ curDuty then Sysfs.ofPair period curDuty
              else Sysfs.ofPair curPeriod duty,
             Sysfs.ofPair period duty])) ∧
      (if period ≥ curDuty then curDuty ≤ period else duty ≤ curPeriod)) := by
  have hrun : ∀ hr : InIntRange intSize curDuty,
      pwmPin.pwmWrite (sysfs intSize N).recording ⟨N⟩ period duty
          (Sysfs.ofPair curPeriod curDuty, []) =
        (.returned none,
          (Sysfs.ofPair period duty,
            [if period ≥ curDuty then Sysfs.ofPair period curDuty
              else Sysfs.ofPair curPeriod duty,
             Sysfs.ofPair period duty])) := by
    intro hr
    have hd := sysfs_duty intSize N h2 (Sysfs.ofPair curPeriod curDuty) curDuty rfl rfl hr
    rw [pwmWrite_recording_of_duty (sysfs intSize N) ⟨N⟩ period duty curDuty _ _ [] htgt hd]
    split_ifs with hb
    · rw [sysfs_write_period intSize N _ _ rfl]
      simp only
      rw [sysfs_write_duty intSize N _ _ rfl]
      rfl
    · rw [sysfs_write_duty intSize N _ _ rfl]
      simp only
      rw [sysfs_write_period intSize N _ _ rfl]
      rfl
  have hmid : if period ≥ curDuty then curDuty ≤ period else duty ≤ curPeriod := by
    split_ifs with hb <;> omega
  refine ⟨?_, fun hr => ⟨hrun hr, hmid⟩⟩
  rcases sysfs_duty_cases intSize N h2 (Sysfs.ofPair curPeriod curDuty) curDuty rfl rfl with
    ⟨hr, _⟩ | ⟨_, e, he⟩
  · rw [hrun hr]
    intro st hst
    simp only [List.mem_cons, List.mem_singleton, List.not_mem_nil, or_false] at hst
    rcases hst with rfl | rfl
    · split_ifs with hb
      · exact ⟨⟨period, curDuty, rfl, rfl, rfl⟩, fun a b hab =>
          (stores_ofPair period curDuty a b hab).1 ▸ (stores_ofPair period curDuty a b hab).2 ▸ hb⟩
      · exact ⟨⟨curPeriod, duty, rfl, rfl, rfl⟩, fun a b hab =>
          (stores_ofPair curPeriod duty a b hab).1 ▸ (stores_ofPair curPeriod duty a b hab).2 ▸
            (by omega : duty ≤ curPeriod)⟩
    · exact ⟨⟨period, duty, rfl, rfl, rfl⟩, fun a b hab =>
        (stores_ofPair period duty a b hab).1 ▸ (stores_ofPair period duty a b hab).2 ▸ htgt⟩
  · have he2 : pwmPin.duty (sysfs intSize N).recording ⟨N⟩ (Sysfs.ofPair curPeriod curDuty, []) =
        (.returned (0, some e), (Sysfs.ofPair curPeriod curDuty, [])) := by
      rw [duty_recording, he]
    rw [pwmWrite_of_duty_error (sysfs intSize N).recording ⟨N⟩ period duty 0 e _ _ htgt he2]
    intro st hst
    simp at hst

/-- Witness of C1: from `(period = 2000, duty = 1800)`, `pwmWrite(1000, 500)`
passes through `(2000, 500)` and ends in `(1000, 500)`. -/
theorem pwmWrite_preserves_invariant_witness :
    pwmPin.pwmWrite (sysfs 32 3).recording ⟨3⟩ 1000 500 (Sysfs.ofPair 2000 1800, []) =
        (.returned none,
          (Sysfs.ofPair 1000 500, [Sysfs.ofPair 2000 500, Sysfs.ofPair 1000 500])) ∧
      (500 : Int) ≤ 2000 :=
  (pwmWrite_preserves_invariant 32 3 (by decide) 2000 1800 1000 500 (by decide)
    (by decide)).2 (by decide)

/-- C5, round trip between `pwmWrite` and `period()` / `duty()`, on the file
model in which a read of the period or duty_cycle file yields the text last
written to it followed by a newline: for `p` and `d` in the range of `int`,
whatever the state before, once `export()`, `enable(true)` and
`pwmWrite(p, d)` have returned nil one after the other, `period()` returns
`(p, nil)` and `duty()` returns `(d, nil)`, and neither changes the state. -/
theorem pwmWrite_round_trip (intSize : Nat) (N : Int) (h2 : 2 ≤ intSize) (p d : Int)
    (hp : InIntRange intSize p) (hd : InIntRange intSize d) (s0 : Sysfs)
    (_hexport : (pwmPin.exportPin (sysfs intSize N) ⟨N⟩ s0).1 = none)
    (_henable : (pwmPin.enable (sysfs intSize N) ⟨N⟩ true
      (pwmPin.exportPin (sysfs intSize N) ⟨N⟩ s0).2).1 = none)
    (hwrite : (pwmPin.pwmWrite (sysfs intSize N) ⟨N⟩ p d
      (pwmPin.enable (sysfs intSize N) ⟨N⟩ true
        (pwmPin.exportPin (sysfs intSize N) ⟨N⟩ s0).2).2).1 = .returned none) :
    pwmPin.period (sysfs intSize N) ⟨N⟩
        (pwmPin.pwmWrite (sysfs intSize N) ⟨N⟩ p d
          (pwmPin.enable (sysfs intSize N) ⟨N⟩ true
            (pwmPin.exportPin (sysfs intSize N) ⟨N⟩ s0).2).2).2 =
      (.returned (p, none),
        (pwmPin.pwmWrite (sysfs intSize N) ⟨N⟩ p d
          (pwmPin.enable (sysfs intSize N) ⟨N⟩ true
            (pwmPin.exportPin (sysfs intSize N) ⟨N⟩ s0).2).2).2) ∧
    pwmPin.duty (sysfs intSize N) ⟨N⟩
        (pwmPin.pwmWrite (sysfs intSize N) ⟨N⟩ p d
          (pwmPin.enable (sysfs intSize N) ⟨N⟩ true
            (pwmPin.exportPin (sysfs intSize N) ⟨N⟩ s0).2).2).2 =
      (.returned (d, none),
        (pwmPin.pwmWrite (sysfs intSize N) ⟨N⟩ p d
          (pwmPin.enable (sysfs intSize N) ⟨N⟩ true
            (pwmPin.exportPin (sysfs intSize N) ⟨N⟩ s0).2).2).2) := by
  generalize (pwmPin.enable (sysfs intSize N) ⟨N⟩ true
    (pwmPin.exportPin (sysfs intSize N) ⟨N⟩ s0).2).2 = s2 at hwrite ⊢
  have hle : d ≤ p := by
    by_contra hgt
    simp [pwmPin.pwmWrite, not_le.mp hgt] at hwrite
  have hfinal : ∃ s3, pwmPin.pwmWrite (sysfs intSize N) ⟨N⟩ p d s2 = (.returned none, s3) ∧
      s3.exported = true ∧ s3.period = Itoa p ∧ s3.duty_cycle = Itoa d := by
    cases he : s2.exported with
    | false =>
      have hd0 := duty_of_read_error (sysfs intSize N) ⟨N⟩ s2 s2 [] (.fileError "ENOENT")
        (sysfs_read_unexported intSize N s2 _ he)
      rw [pwmWrite_of_duty_error (sysfs intSize N) ⟨N⟩ p d 0 _ s2 s2 hle hd0] at hwrite
      simp at hwrite
    | true =>
      have hc := duty_of_content (sysfs intSize N) ⟨N⟩ s2 s2 (s2.duty_cycle ++ ['\n'])
        (by simp) (sysfs_read_duty intSize N s2 he)
      rcases hA : Atoi (sysfs intSize N).intSize (s2.duty_cycle ++ ['\n']).dropLast with
        ⟨curDuty, _ | e⟩
      · rw [hA] at hc
        rw [pwmWrite_of_duty (sysfs intSize N) ⟨N⟩ p d curDuty s2 s2 hle hc]
        split_ifs with hb
        · rw [sysfs_write_period intSize N _ _ he]
          simp only
          rw [sysfs_write_duty intSize N { s2 with period := Itoa p } _ he]
          exact ⟨_, rfl, he, rfl, rfl⟩
        · rw [sysfs_write_duty intSize N _ _ he]
          simp only
          rw [sysfs_write_period intSize N { s2 with duty_cycle := Itoa d } _ he]
          exact ⟨_, rfl, he, rfl, rfl⟩
      · rw [hA] at hc
        rw [pwmWrite_of_duty_error (sysfs intSize N) ⟨N⟩ p d 0 e s2 s2 hle hc] at hwrite
        simp at hwrite
  obtain ⟨s3, hrun, he3, hp3, hd3⟩ := hfinal
  rw [hrun]
  exact ⟨sysfs_period intSize N h2 s3 p he3 hp3 hp, sysfs_duty intSize N h2 s3 d he3 hd3 hd⟩

/-- Witness of C5: channel 3, not exported at first, then `export()`,
`enable(true)`, `pwmWrite(2000, 1800)`. -/
theorem pwmWrite_round_trip_witness :
    pwmPin.period (sysfs 32 3) ⟨3⟩ ⟨true, ['1'], "2000".toList, "1800".toList⟩ =
        (.returned (2000, none), ⟨true, ['1'], "2000".toList, "1800".toList⟩) ∧
      pwmPin.duty (sysfs 32 3) ⟨3⟩ ⟨true, ['1'], "2000".toList, "1800".toList⟩ =
        (.returned (1800, none), ⟨true, ['1'], "2000".toList, "1800".toList⟩) :=
  pwmWrite_round_trip 32 3 (by decide) 2000 1800 (by decide) (by decide) ⟨false, [], [], []⟩
    (by decide) (by decide) (by decide)

/-- C8, case exhaustiveness of the ordering branch: for `curDuty ≤ curPeriod`
and `duty ≤ period` the combination `period < curDuty` and `duty > curPeriod`
does not occur.  When `duty()` has obtained `curDuty`, the first write of
`pwmWrite` is the duty write exactly when `period < curDuty`, and then
`duty ≤ curPeriod` holds. -/
theorem pwmWrite_case_exhaustive {σ : Type} (env : Env σ) (p : pwmPin)
    (curPeriod curDuty period duty : Int) (s s1 : σ)
    (hcur : curDuty ≤ curPeriod) (htgt : duty ≤ period)
    (hd : p.duty env s = (.returned (curDuty, none), s1)) :
    ¬ (period < curDuty ∧ duty > curPeriod) ∧
    ((p.pwmWrite env.logged period duty (s, [])).2.2[1]? =
        some (IOEvent.write (pwmDutyCyclePath p.pin) (Itoa duty)) ↔ period < curDuty) ∧
    ((p.pwmWrite env.logged period duty (s, [])).2.2[1]? =
        some (IOEvent.write (pwmDutyCyclePath p.pin) (Itoa duty)) → duty ≤ curPeriod) := by
  have hiff : (p.pwmWrite env.logged period duty (s, [])).2.2[1]? =
      some (IOEvent.write (pwmDutyCyclePath p.pin) (Itoa duty)) ↔ period < curDuty := by
    rw [pwmWrite_logged_of_duty env p period duty curDuty s s1 [] htgt hd]
    split_ifs with hb
    · rcases hw : env.writeFile (pwmPeriodPath p.pin) (Itoa period) s1 with
        ⟨⟨n, _ | e⟩, s2⟩ <;>
        simp [pwmPeriodPath_ne_duty p.pin, not_lt.mpr hb]
    · rcases hw : env.writeFile (pwmDutyCyclePath p.pin) (Itoa duty) s1 with
        ⟨⟨n, _ | e⟩, s2⟩ <;>
        simp [not_le.mp hb]
  refine ⟨by omega, hiff, fun h => ?_⟩
  have := hiff.mp h
  omega

/-- Witness of C8: from `(period = 2000, duty = 1800)`, `pwmWrite(1000, 500)`
takes the duty-first branch, and `500 ≤ 2000`. -/
theorem pwmWrite_case_exhaustive_witness :
    ¬ ((1000 : Int) < 1800 ∧ (500 : Int) > 2000) ∧
      ((pwmPin.pwmWrite (sysfs 64 3).logged ⟨3⟩ 1000 500 (Sysfs.ofPair 2000 1800, [])).2.2[1]? =
        some (IOEvent.write (pwmDutyCyclePath 3) (Itoa 500)) ↔ (1000 : Int) < 1800) ∧
      ((pwmPin.pwmWrite (sysfs 64 3).logged ⟨3⟩ 1000 500 (Sysfs.ofPair 2000 1800, [])).2.2[1]? =
        some (IOEvent.write (pwmDutyCyclePath 3) (Itoa 500)) → (500 : Int) ≤ 2000) :=
  pwmWrite_case_exhaustive (sysfs 64 3) ⟨3⟩ 2000 1800 1000 500 (Sysfs.ofPair 2000 1800)
    (Sysfs.ofPair 2000 1800) (by decide) (by decide) (by decide)

/-- C7 fails as stated: the content `-5` followed by a newline is, once the
newline is stripped, not a base-10 non-negative integer, and yet `duty()` and
`period()` return a nil error, with the value `-5`. -/
theorem duty_period_accept_sign :
    isNonNegDecimal "-5".toList = false ∧
    pwmPin.duty (scripted 64) ⟨3⟩ [("-5".toList ++ ['\n'], none)] =
      (.returned (-5, none), []) ∧
    pwmPin.period (scripted 64) ⟨3⟩ [("-5".toList ++ ['\n'], none)] =
      (.returned (-5, none), []) := by
  decide

/-- C7 as amended: on a platform whose `int` has at least 2 bits, when the
file read yields a text followed by a newline, `duty()` and `period()` return
a non-nil error if the text is not an optionally signed base-10 integer of the
`int` range; when they return a nil error the value returned is the integer,
negative or not, which the text denotes; and on every text that denotes an
integer they return it with a nil error. -/
theorem duty_period_parse {σ : Type} (env : Env σ) (h2 : 2 ≤ env.intSize) (p : pwmPin)
    (s s1 : σ) (txt : List Char) :
    (env.readFile (pwmDutyCyclePath p.pin) s = ((txt ++ ['\n'], none), s1) →
      ((∀ v, ¬ Denotes env.intSize txt v) → ∃ e, p.duty env s = (.returned (0, some e), s1)) ∧
      (∀ v, (p.duty env s).1 = .returned (v, none) → Denotes env.intSize txt v) ∧
      (∀ v, Denotes env.intSize txt v → p.duty env s = (.returned (v, none), s1))) ∧
    (env.readFile (pwmPeriodPath p.pin) s = ((txt ++ ['\n'], none), s1) →
      ((∀ v, ¬ Denotes env.intSize txt v) →
        ∃ e, p.period env s = (.returned (0, some e), s1)) ∧
      (∀ v, (p.period env s).1 = .returned (v, none) → Denotes env.intSize txt v) ∧
      (∀ v, Denotes env.intSize txt v → p.period env s = (.returned (v, none), s1))) := by
  constructor
  · intro hr
    have hc := duty_of_content env p s s1 (txt ++ ['\n']) (by simp) hr
    rw [List.dropLast_concat] at hc
    rcases hA : Atoi env.intSize txt with ⟨w, _ | e⟩
    · rw [hA] at hc
      have hw := (Atoi_ok_iff env.intSize h2 txt w).mp hA
      refine ⟨fun hno => absurd hw (hno w), ?_, ?_⟩
      · intro v hv
        rw [hc] at hv
        obtain rfl : w = v := by simpa using hv
        exact hw
      · intro v hv
        have := (Atoi_ok_iff env.intSize h2 txt v).mpr hv
        rw [hA] at this
        obtain rfl : w = v := by simpa using this
        exact hc
    · rw [hA] at hc
      refine ⟨fun _ => ⟨e, hc⟩, ?_, ?_⟩
      · intro v hv
        rw [hc] at hv
        simp at hv
      · intro v hv
        have := (Atoi_ok_iff env.intSize h2 txt v).mpr hv
        rw [hA] at this
        simp at this
  · intro hr
    have hc := period_of_content env p s s1 (txt ++ ['\n']) (by simp) hr
    rw [List.dropLast_concat] at hc
    rcases hA : Atoi env.intSize txt with ⟨w, _ | e⟩
    · rw [hA] at hc
      have hw := (Atoi_ok_iff env.intSize h2 txt w).mp hA
      refine ⟨fun hno => absurd hw (hno w), ?_, ?_⟩
      · intro v hv
        rw [hc] at hv
        obtain rfl : w = v := by simpa using hv
        exact hw
      · intro v hv
        have := (Atoi_ok_iff env.intSize h2 txt v).mpr hv
        rw [hA] at this
        obtain rfl : w = v := by simpa using this
        exact hc
    · rw [hA] at hc
      refine ⟨fun _ => ⟨e, hc⟩, ?_, ?_⟩
      · intro v hv
        rw [hc] at hv
        simp at hv
      · intro v hv
        have := (Atoi_ok_iff env.intSize h2 txt v).mpr hv
        rw [hA] at this
        simp at this

/-- Witness of the amended C7: the content `-1800` followed by a newline is
read as `-1800`, which the text denotes; the content `12x` followed by a
newline, which denotes nothing, gives an error. -/
theorem duty_period_parse_witness :
    Denotes 64 "-1800".toList (-1800) ∧
    (∃ e, pwmPin.period (scripted 64) ⟨3⟩ [("12x".toList ++ ['\n'], none)] =
      (.returned (0, some e), [])) :=
  ⟨((duty_period_parse (scripted 64) (by decide) ⟨3⟩ [("-1800".toList ++ ['\n'], none)] []
      "-1800".toList).1 (by decide)).2.1 (-1800) (by decide),
    ((duty_period_parse (scripted 64) (by decide) ⟨3⟩ [("12x".toList ++ ['\n'], none)] []
      "12x".toList).2 (by decide)).1
      (fun v hv => by
        have h := (Atoi_ok_iff 64 (by decide) "12x".toList v).mpr hv
        have e : Atoi 64 "12x".toList = (0, some (.numError "12x".toList .malformed)) := by
          decide
        rw [e] at h
        simp at h)⟩

/-- C10, the order `pwmWrite` picks is the only safe one outside the "don't
care" row of its case table.  The channel holds `(curPeriod, curDuty)` with
`curDuty ≤ curPeriod` (`curDuty` in the range of `int`), the target is
`(period, duty)` with `duty ≤ period`, and every write is applied as it comes.
`pwmWrite` performs the read and two writes `w1`, `w2`.  The opposite order
starts with `w2`; applied to the initial state it leaves a pair `(a, b)`, and
`b ≤ a` holds if and only if `period ≥ curDuty` and `duty ≤ curPeriod`.  In
particular, when `period < curDuty`, writing the period first leaves
`(period, curDuty)` with `curDuty > period`, and when `duty > curPeriod`,
writing the duty first leaves `(curPeriod, duty)` with `duty > curPeriod`. -/
theorem pwmWrite_order_only_safe (intSize : Nat) (N : Int) (h2 : 2 ≤ intSize)
    (curPeriod curDuty period duty : Int) (_hcur : curDuty ≤ curPeriod) (htgt : duty ≤ period)
    (hr : InIntRange intSize curDuty) :
    (∃ w1 w2 a b,
      (pwmPin.pwmWrite (sysfs intSize N).logged ⟨N⟩ period duty
          (Sysfs.ofPair curPeriod curDuty, [])).2.2 =
        [IOEvent.read (pwmDutyCyclePath N), w1, w2] ∧
      (sysfs intSize N).apply w2 (Sysfs.ofPair curPeriod curDuty) = Sysfs.ofPair a b ∧
      (b ≤ a ↔ period ≥ curDuty ∧ duty ≤ curPeriod)) ∧
    (period < curDuty →
      ((sysfs intSize N).writeFile (pwmPeriodPath N) (Itoa period)
          (Sysfs.ofPair curPeriod curDuty)).2 = Sysfs.ofPair period curDuty ∧
        curDuty > period) ∧
    (duty > curPeriod →
      ((sysfs intSize N).writeFile (pwmDutyCyclePath N) (Itoa duty)
          (Sysfs.ofPair curPeriod curDuty)).2 = Sysfs.ofPair curPeriod duty ∧
        duty > curPeriod) := by
  have hd := sysfs_duty intSize N h2 (Sysfs.ofPair curPeriod curDuty) curDuty rfl rfl hr
  have hwp : ∀ s : Sysfs, s.exported = true →
      ((sysfs intSize N).writeFile (pwmPeriodPath N) (Itoa period) s).2 =
        { s with period := Itoa period } := by
    intro s hs
    rw [sysfs_write_period intSize N s _ hs]
  have hwd : ∀ s : Sysfs, s.exported = true →
      ((sysfs intSize N).writeFile (pwmDutyCyclePath N) (Itoa duty) s).2 =
        { s with duty_cycle := Itoa duty } := by
    intro s hs
    rw [sysfs_write_duty intSize N s _ hs]
  refine ⟨?_, fun hlt => ⟨?_, hlt⟩, fun hgt => ⟨?_, hgt⟩⟩
  · rw [pwmWrite_logged_of_duty (sysfs intSize N) ⟨N⟩ period duty curDuty _ _ [] htgt hd]
    by_cases hb : period ≥ curDuty
    · refine ⟨IOEvent.write (pwmPeriodPath N) (Itoa period),
        IOEvent.write (pwmDutyCyclePath N) (Itoa duty), curPeriod, duty, ?_, ?_, ?_⟩
      · rw [if_pos hb, sysfs_write_period intSize N _ _ rfl]
        rfl
      · simp only [Env.apply]
        rw [hwd _ rfl]
        rfl
      · constructor
        · intro h
          exact ⟨hb, h⟩
        · intro h
          exact h.2
    · refine ⟨IOEvent.write (pwmDutyCyclePath N) (Itoa duty),
        IOEvent.write (pwmPeriodPath N) (Itoa period), period, curDuty, ?_, ?_, ?_⟩
      · rw [if_neg hb, sysfs_write_duty intSize N _ _ rfl]
        rfl
      · simp only [Env.apply]
        rw [hwp _ rfl]
        rfl
      · constructor
        · intro h
          exact absurd h hb
        · intro h
          exact absurd h.1 hb
  · rw [hwp _ rfl]
    rfl
  · rw [hwd _ rfl]
    rfl

/-- Witness of C10: from `(period = 2000, duty = 1800)` with target
`(1000, 500)`, writing the period first leaves `(1000, 1800)`. -/
theorem pwmWrite_order_only_safe_witness :
    ((sysfs 64 3).writeFile (pwmPeriodPath 3) (Itoa 1000) (Sysfs.ofPair 2000 1800)).2 =
        Sysfs.ofPair 1000 1800 ∧ (1800 : Int) > 1000 :=
  (pwmWrite_order_only_safe 64 3 (by decide) 2000 1800 1000 500 (by decide) (by decide)
    (by decide)).2.1 (by decide)

end Edison
